import Mathlib

/-!
Verification of the client-side tabular data engine of the dashboard repository:
the virtual-window calculation (`useVirtualScroll`), the CSV serializer
(`escapeCSV` / `generateCSV`), the global filter predicate (`globalFilterFn`),
the filter-clearing state transition (`clearAllFilters`), the CSV-export row
selection of `DataTable.handleCSVExport`, and the stable multi-key sort of the
table view.  Numeric quantities are embedded as `Int` (JS numbers at integer
values); `Math.floor` of a quotient is `Int.fdiv` and `Math.ceil` is `ceilDiv`.
-/

namespace DashSpec

/-! ### Virtual scrolling (useVirtualScroll) -/

/-- One materialized row of the virtual window, as produced by `useVirtualScroll`:
`{ index, start: index*estimateSize, end: (index+1)*estimateSize, size: estimateSize }`
(the source field `end` is called `endPx` here because `end` is reserved). -/
structure VirtualItem where
  index : Int
  start : Int
  endPx : Int
  size : Int
  deriving DecidableEq, Repr

/-- Model of `Math.ceil(a / b)` on integer inputs: `-⌊-a / b⌋`. -/
def ceilDiv (a b : Int) : Int := -(Int.fdiv (-a) b)

/-- `startIndex = Math.max(0, Math.floor(scrollTop / estimateSize) - overscan)`. -/
def startIndex (scrollTop estimateSize overscan : Int) : Int :=
  max 0 (Int.fdiv scrollTop estimateSize - overscan)

/-- `visibleCount = Math.ceil(containerHeight / estimateSize)`. -/
def visibleCount (containerHeight estimateSize : Int) : Int :=
  ceilDiv containerHeight estimateSize

/-- `endIndex = Math.min(count - 1, startIndex + visibleCount + overscan * 2)`. -/
def endIndex (count scrollTop estimateSize overscan containerHeight : Int) : Int :=
  min (count - 1)
    (startIndex scrollTop estimateSize overscan +
      visibleCount containerHeight estimateSize + overscan * 2)

/-- The source `for` loop: one `VirtualItem` for each `i` in `s..e`. -/
def virtualItems (s e estimateSize : Int) : List VirtualItem :=
  (List.range (e + 1 - s).toNat).map fun (k : Nat) =>
    { index := s + (k : Int)
      start := (s + (k : Int)) * estimateSize
      endPx := (s + (k : Int) + 1) * estimateSize
      size := estimateSize }

/-- The `virtualRows` memo of `useVirtualScroll`: empty when disabled or
`count === 0`, otherwise one `VirtualItem` for each `i` in
`startIndex..endIndex` (the source `for` loop). -/
def virtualRows (enabled : Bool) (count estimateSize overscan containerHeight scrollTop : Int) :
    List VirtualItem :=
  if enabled = false ∨ count = 0 then []
  else
    virtualItems (startIndex scrollTop estimateSize overscan)
      (endIndex count scrollTop estimateSize overscan containerHeight) estimateSize

/-- `totalHeight = count * estimateSize`. -/
def totalHeight (count estimateSize : Int) : Int := count * estimateSize

/-! ### CSV serialization (escapeCSV / generateCSV) -/

/-- The quoting test of `escapeCSV`: the string contains a comma, a quote
character, or a line break (`\n` or `\r`). -/
def needsQuote (s : String) : Bool :=
  s.data.any fun c => c == ',' || c == '"' || c == '\n' || c == '\r'

/-- `str.replace(/"/g, '""')`: every quote character is doubled. -/
def doubleQuotes (cs : List Char) : List Char :=
  cs.foldr (fun c acc => if c = '"' then '"' :: '"' :: acc else c :: acc) []

/-- `escapeCSV`: `null`/`undefined` become the empty string; a string
containing a comma, quote, or line break is wrapped in quotes with internal
quotes doubled; any other string passes through unchanged. -/
def escapeCSV : Option String → String
  | none => ""
  | some s => if needsQuote s then "\"" ++ String.mk (doubleQuotes s.data) ++ "\"" else s

/-- A column descriptor of `CSVExportOptions`: id, header label, and accessor
(key access is modelled as the wrapping function applying the key). -/
structure CSVColumn (T : Type) where
  id : String
  header : String
  accessor : T → Option String

/-- JavaScript `Array.prototype.join(sep)`. -/
def joinWith (sep : String) : List String → String
  | [] => ""
  | x :: xs => xs.foldl (fun acc s => acc ++ sep ++ s) x

/-- `generateCSV`: the header row (escaped column headers joined by commas)
followed by one row per data element, all joined by `"\r\n"`. -/
def generateCSV {T : Type} (columns : List (CSVColumn T)) (data : List T) : String :=
  joinWith "\r\n"
    (joinWith "," (columns.map fun c => escapeCSV (some c.header)) ::
      data.map fun r => joinWith "," (columns.map fun c => escapeCSV (c.accessor r)))

/-- The form the C8 claim asserts for the generated text: every row, the last
one included, is terminated by the two-character sequence `"\r\n"`. -/
def csvTerminatedForm {T : Type} (columns : List (CSVColumn T)) (data : List T) : String :=
  String.join
    (((joinWith "," (columns.map fun c => escapeCSV (some c.header)) ::
        data.map fun r => joinWith "," (columns.map fun c => escapeCSV (c.accessor r))).map
      fun line => line ++ "\r\n"))

/-! ### CSV parsing, per the documented delimiter/quote rules

Modelled from the spec: the repository contains no CSV parser; the round-trip
claim asks that the output of `generateCSV` be re-split "according to the
documented rules" (fields comma-separated, rows `\r\n`-separated, a field
containing a comma, quote, or line break wrapped in quotes with embedded
quotes doubled).  `parseCSV` is the standard single-pass state machine for
exactly those rules. -/

/-- State of the CSV parsing state machine: whether we are inside a quoted
field, whether the previous character closed a quoted section (so that a
following quote is an escaped, doubled quote), the field and row accumulated
so far, and the finished rows. -/
structure ParseState where
  inQ : Bool
  justClosed : Bool
  field : List Char
  row : List String
  rows : List (List String)

/-- One transition of the CSV parsing state machine. -/
def parseStep (st : ParseState) (c : Char) : ParseState :=
  if st.inQ then
    if c = '"' then { st with inQ := false, justClosed := true }
    else { st with field := st.field ++ [c], justClosed := false }
  else if c = '"' then
    if st.justClosed then { st with inQ := true, justClosed := false, field := st.field ++ ['"'] }
    else { st with inQ := true, justClosed := false }
  else if c = ',' then { st with row := st.row ++ [String.mk st.field], field := [], justClosed := false }
  else if c = '\r' then { st with justClosed := false }
  else if c = '\n' then
    { st with rows := st.rows ++ [st.row ++ [String.mk st.field]], row := [], field := [],
              justClosed := false }
  else { st with field := st.field ++ [c], justClosed := false }

/-- Initial parser state. -/
def initState : ParseState := ⟨false, false, [], [], []⟩

/-- Close the pending field and row at end of input. -/
def finishParse (st : ParseState) : List (List String) :=
  st.rows ++ [st.row ++ [String.mk st.field]]

/-- Parse a CSV text into its rows of fields, per the documented rules. -/
def parseCSV (s : String) : List (List String) :=
  finishParse (s.data.foldl parseStep initState)

/-! ### Global filter (globalFilterFn of useDataTable) -/

/-- Model of JavaScript `String.prototype.toLowerCase`, character by character. -/
def toLowerCase (s : String) : String := String.mk (s.data.map Char.toLower)

/-- Substring containment, `hay.includes(needle)` of JavaScript. -/
def containsSub (needle : List Char) : List Char → Bool
  | [] => needle.isEmpty
  | c :: t => needle.isPrefixOf (c :: t) || containsSub needle t

/-- The stringified, lowercased search text of one cell:
`value != null ? String(value).toLowerCase() : ''`. -/
def cellSearchText : Option String → String
  | some s => toLowerCase s
  | none => ""

/-- `globalFilterFn`: lowercase the filter value; an empty search keeps every
row; otherwise the row is kept when some cell's lowercased string form
contains the search text. -/
def globalFilterFn (cells : List (Option String)) (filterValue : String) : Bool :=
  let search := toLowerCase filterValue
  if search = "" then true
  else (cells.map cellSearchText).any fun val => containsSub search.data val.data

/-! ### Table state and clearAllFilters (useDataTable) -/

/-- The pagination slice state `{ pageIndex, pageSize }`. -/
structure PaginationState where
  pageIndex : Nat
  pageSize : Nat
  deriving DecidableEq

/-- The composite state owned by `useDataTable`: sorting (column id and a
descending flag), per-column filters (column id and filter text), the global
filter text, the selected row ids, and the pagination state. -/
structure TableState where
  sorting : List (String × Bool)
  columnFilters : List (String × String)
  globalFilter : String
  rowSelection : List String
  pagination : PaginationState
  deriving DecidableEq

/-- `clearAllFilters`: `setGlobalFilter('')`, `setColumnFilters([])`,
`setPagination(prev => ({ ...prev, pageIndex: 0 }))`. -/
def clearAllFilters (st : TableState) : TableState :=
  { st with
    globalFilter := ""
    columnFilters := []
    pagination := { st.pagination with pageIndex := 0 } }

/-! ### CSV export data selection (DataTable.handleCSVExport)

Modelled from the spec: the row models referenced by `handleCSVExport`
(`table.getSelectedRowModel()` inside `useDataTable.selectedRows`, and
`table.getFilteredRowModel()`) belong to `@tanstack/react-table` and are not
part of the repository's sources.  Following the spec's words, the current
filtered view is taken as an ordered row list `view`, and the selected rows
are "those rows (restricted to the current filtered view, in the view's
current order)". -/

/-- Modelled from the spec: the selected row objects — the rows of the current
filtered view whose identity is in the selection set, in view order. -/
def selectedRowsModel {T : Type} (rowId : T → String) (selection : List String)
    (view : List T) : List T :=
  view.filter fun r => selection.contains (rowId r)

/-- The export-data branch of `handleCSVExport`:
`selectedRows.length > 0 ? selectedRows : table.getFilteredRowModel().rows`. -/
def exportDataModel {T : Type} (rowId : T → String) (selection : List String)
    (view : List T) : List T :=
  if (selectedRowsModel rowId selection view).length > 0 then
    selectedRowsModel rowId selection view
  else view

/-! ### Stable multi-key sort (SortEngine)

Modelled from the spec: sorting is delegated to `@tanstack/react-table`'s
`getSortedRowModel()`, whose implementation is not part of the repository's
sources.  Following §4.1–§4.2 of the spec: cell values compare with nulls
last regardless of direction, numbers numerically, strings case-insensitively
by code point; keys are tried in `SortSpec` priority order with the first
non-zero result deciding; an invalid column id is skipped; the sort itself is
a stable insertion into sorted position (equivalent to the prescribed stable
merge sort). -/

/-- A cell value as seen by the sort engine: a string, a number, or
null/undefined. -/
inductive CellValue where
  | str (s : String)
  | num (n : Int)
  | null
  deriving DecidableEq

/-- Lexicographic comparison of character lists by code point. -/
def lexCompare : List Char → List Char → Ordering
  | [], [] => .eq
  | [], _ :: _ => .lt
  | _ :: _, [] => .gt
  | a :: as, b :: bs =>
    match compare a.toNat b.toNat with
    | .eq => lexCompare as bs
    | o => o

/-- Modelled from the spec (§4.1): the default total order on cell values —
numbers numerically, strings case-insensitively by code point, null last;
numbers before strings. -/
def compareValues : CellValue → CellValue → Ordering
  | .null, .null => .eq
  | .null, _ => .gt
  | _, .null => .lt
  | .num m, .num n => compare m n
  | .num _, .str _ => .lt
  | .str _, .num _ => .gt
  | .str s, .str t => lexCompare (toLowerCase s).data (toLowerCase t).data

/-- A sort direction. -/
inductive SortDir where
  | asc
  | desc
  deriving DecidableEq

/-- One entry of a `SortSpec`: a column id and a direction. -/
structure SortKey where
  columnId : String
  dir : SortDir

/-- A column as seen by the sort engine: id and value accessor. -/
structure SortColumn (T : Type) where
  id : String
  accessor : T → CellValue

/-- Modelled from the spec (§4.2): direction flips the sign of the comparator
result for non-null values, while nulls sort last in either direction. -/
def dirCompare (dir : SortDir) (a b : CellValue) : Ordering :=
  match a, b with
  | .null, .null => .eq
  | .null, _ => .gt
  | _, .null => .lt
  | _, _ =>
    match dir with
    | .asc => compareValues a b
    | .desc => (compareValues a b).swap

/-- Modelled from the spec (§4.2, §4.6): compare two rows key-by-key through
the sort spec in priority order; the first non-`eq` result decides; a key
whose column id resolves to no column is ignored. -/
def multiKeyCompare {T : Type} (columns : List (SortColumn T)) :
    List SortKey → T → T → Ordering
  | [], _, _ => .eq
  | k :: rest, a, b =>
    match columns.find? (fun c => c.id == k.columnId) with
    | none => multiKeyCompare columns rest a b
    | some c =>
      match dirCompare k.dir (c.accessor a) (c.accessor b) with
      | .eq => multiKeyCompare columns rest a b
      | o => o

/-- The "not greater" relation on index-decorated rows used by the stable
sort; the original index is never consulted. -/
def rowLE {T : Type} (columns : List (SortColumn T)) (sspec : List SortKey)
    (p q : Nat × T) : Prop :=
  multiKeyCompare columns sspec p.2 q.2 ≠ Ordering.gt

instance {T : Type} (columns : List (SortColumn T)) (sspec : List SortKey) :
    DecidableRel (rowLE columns sspec) := fun p q =>
  inferInstanceAs (Decidable (multiKeyCompare columns sspec p.2 q.2 ≠ Ordering.gt))

/-- Modelled from the spec: the stable sort applied to rows decorated with
their original index (the decoration only witnesses stability; the relation
ignores it). -/
def sortEnum {T : Type} (columns : List (SortColumn T)) (sspec : List SortKey)
    (l : List T) : List (Nat × T) :=
  (l.enum).insertionSort (rowLE columns sspec)

/-- The sorted row order produced by the sort engine. -/
def sortRows {T : Type} (columns : List (SortColumn T)) (sspec : List SortKey)
    (l : List T) : List T :=
  (sortEnum columns sspec l).map Prod.snd

/-! ### Helper lemmas -/

theorem intercalate_go_eq_foldl (sep : String) (l : List String) (acc : String) :
    String.intercalate.go acc sep l = l.foldl (fun a s => a ++ sep ++ s) acc := by
  induction l generalizing acc with
  | nil => rfl
  | cons x xs ih => simp only [String.intercalate.go, List.foldl_cons, ih]

theorem joinWith_eq_intercalate (sep : String) (l : List String) :
    joinWith sep l = String.intercalate sep l := by
  cases l with
  | nil => rfl
  | cons x xs =>
    simp only [joinWith, String.intercalate, intercalate_go_eq_foldl]

/-! ### C7: clearAllFilters frame effect -/

/-- C7: `clearAllFilters` sets the global filter to the empty string, empties
the per-column filter list, and resets `pageIndex` to 0, while leaving
`pageSize`, the sorting state, and the row-selection state unchanged. -/
theorem clearAllFilters_spec (st : TableState) :
    (clearAllFilters st).globalFilter = "" ∧
    (clearAllFilters st).columnFilters = [] ∧
    (clearAllFilters st).pagination.pageIndex = 0 ∧
    (clearAllFilters st).pagination.pageSize = st.pagination.pageSize ∧
    (clearAllFilters st).sorting = st.sorting ∧
    (clearAllFilters st).rowSelection = st.rowSelection :=
  ⟨rfl, rfl, rfl, rfl, rfl, rfl⟩

/-! ### C9: empty range at count 0, no negative indices -/

/-- C9: when the total item count is 0 the calculation returns no virtual rows
and an inverted (empty) index range, and for every input whatsoever no index
of a returned virtual row is negative. -/
theorem virtualRows_empty_and_nonneg :
    (∀ estimateSize overscan containerHeight scrollTop : Int,
      virtualRows true 0 estimateSize overscan containerHeight scrollTop = []) ∧
    (∀ scrollTop estimateSize overscan containerHeight : Int,
      endIndex 0 scrollTop estimateSize overscan containerHeight <
        startIndex scrollTop estimateSize overscan) ∧
    (∀ (enabled : Bool) (count estimateSize overscan containerHeight scrollTop : Int),
      ∀ it ∈ virtualRows enabled count estimateSize overscan containerHeight scrollTop,
        0 ≤ it.index) := by
  refine ⟨fun es o ch st => by simp [virtualRows], fun st es o ch => ?_, ?_⟩
  · have h1 : endIndex 0 st es o ch ≤ -1 := min_le_left _ _
    have h2 : (0 : Int) ≤ startIndex st es o := le_max_left _ _
    omega
  · intro enabled count es o ch st it hit
    unfold virtualRows virtualItems at hit
    split at hit
    · simp at hit
    · simp only [List.mem_map, List.mem_range] at hit
      obtain ⟨k, -, rfl⟩ := hit
      have h2 : (0 : Int) ≤ startIndex st es o := le_max_left _ _
      show (0 : Int) ≤ startIndex st es o + (k : Int)
      omega

/-! ### C1: the virtual window index formulas -/

/-- C1 counterexample: at `totalCount = 1000`, `rowExtent = 40`,
`viewportExtent = 600`, `scrollOffset = 0`, `overscan = 5` the code returns
`endIndex = 25`, not the claimed
`min(totalCount - 1, floor(scrollOffset/rowExtent) + ceil(viewportExtent/rowExtent) + overscan) = 20`. -/
theorem endIndex_formula_counterexample :
    endIndex 1000 0 40 5 600 ≠
      min (1000 - 1) (Int.fdiv 0 40 + ceilDiv 600 40 + 5) := by decide

/-- C1 amended: `startIndex = max(0, floor(scrollOffset/rowExtent) - overscan)`
exactly as claimed, but `endIndex = min(totalCount - 1, startIndex +
visibleCount + 2*overscan)`; the claimed `endIndex` formula holds whenever
`floor(scrollOffset/rowExtent) ≥ overscan`, and the claimed concrete example
still returns `startIndex = 45` and `endIndex = 70`. -/
theorem virtualWindow_formulas_amended
    (count scrollTop estimateSize overscan containerHeight : Int)
    (hc : 0 < count) (hr : 0 < estimateSize) (hv : 0 ≤ containerHeight)
    (hs : 0 ≤ scrollTop) (ho : 0 ≤ overscan) :
    startIndex scrollTop estimateSize overscan =
      max 0 (Int.fdiv scrollTop estimateSize - overscan) ∧
    endIndex count scrollTop estimateSize overscan containerHeight =
      min (count - 1)
        (max 0 (Int.fdiv scrollTop estimateSize - overscan) +
          ceilDiv containerHeight estimateSize + 2 * overscan) ∧
    (overscan ≤ Int.fdiv scrollTop estimateSize →
      endIndex count scrollTop estimateSize overscan containerHeight =
        min (count - 1)
          (Int.fdiv scrollTop estimateSize + ceilDiv containerHeight estimateSize + overscan)) ∧
    startIndex 2000 40 5 = 45 ∧ endIndex 1000 2000 40 5 600 = 70 := by
  refine ⟨rfl, ?_, ?_, by decide, by decide⟩
  · unfold endIndex startIndex visibleCount
    omega
  · intro h
    unfold endIndex startIndex visibleCount
    omega

/-- C1 witness: the amended theorem applied at the claim's concrete example. -/
theorem virtualWindow_formulas_amended_witness :
    ((0 : Int) < 1000 ∧ (0 : Int) < 40 ∧ (0 : Int) ≤ 600 ∧ (0 : Int) ≤ 2000 ∧
      (0 : Int) ≤ 5) ∧
    (startIndex 2000 40 5 = max 0 (Int.fdiv 2000 40 - 5) ∧
      endIndex 1000 2000 40 5 600 =
        min (1000 - 1) (max 0 (Int.fdiv 2000 40 - 5) + ceilDiv 600 40 + 2 * 5) ∧
      ((5 : Int) ≤ Int.fdiv 2000 40 →
        endIndex 1000 2000 40 5 600 =
          min (1000 - 1) (Int.fdiv 2000 40 + ceilDiv 600 40 + 5)) ∧
      startIndex 2000 40 5 = 45 ∧ endIndex 1000 2000 40 5 600 = 70) :=
  ⟨by decide,
    virtualWindow_formulas_amended 1000 2000 40 5 600 (by decide) (by decide)
      (by decide) (by decide) (by decide)⟩

/-! ### C4: which rows the CSV export serializes -/

/-- C4 counterexample: with selection `{"a"}` nonempty but disjoint from the
current filtered view `["b"]`, the export branch serializes the whole view
`["b"]`, not the (empty) selected-rows-restricted-to-view list the claim
demands. -/
theorem exportData_counterexample :
    (["a"] : List String) ≠ [] ∧
    selectedRowsModel (fun s => s) ["a"] ["b"] = [] ∧
    exportDataModel (fun s => s) ["a"] ["b"] = ["b"] := by
  refine ⟨by decide, by decide, by decide⟩

/-- C4 amended: the export serializes the selected rows restricted to the
current filtered view (in view order) exactly when that restriction is
non-empty; otherwise — no selected id at all, or none present in the view —
it serializes every row of the current filtered view, in view order. -/
theorem exportData_amended {T : Type} (rowId : T → String) (selection : List String)
    (view : List T) :
    exportDataModel rowId selection view =
      if (selectedRowsModel rowId selection view).isEmpty then view
      else selectedRowsModel rowId selection view := by
  unfold exportDataModel
  cases h : selectedRowsModel rowId selection view with
  | nil => simp [h]
  | cons a t => simp [h]

/-! ### C8: structure of the generated CSV text -/

/-- C8 counterexample: for one column with header `"A"` and no data rows the
generated text is `"A"`, which is not the `"\r\n"`-terminated form the claim
asserts (`"A\r\n"`). -/
theorem generateCSV_terminated_counterexample :
    generateCSV [({id := "a", header := "A", accessor := fun _ => none} : CSVColumn Unit)]
        ([] : List Unit) ≠
      csvTerminatedForm [({id := "a", header := "A", accessor := fun _ => none} : CSVColumn Unit)]
        ([] : List Unit) := by decide

/-- C8 amended: the generated text is the header row followed by one row per
data element in data order, the rows *separated* (not terminated) by the
two-character sequence `"\r\n"`, each row being the escaped cell values
joined by commas. -/
theorem generateCSV_crlf_separated {T : Type} (columns : List (CSVColumn T)) (data : List T) :
    generateCSV columns data =
      String.intercalate "\r\n"
        (String.intercalate "," (columns.map fun c => escapeCSV (some c.header)) ::
          data.map fun r =>
            String.intercalate "," (columns.map fun c => escapeCSV (c.accessor r))) := by
  unfold generateCSV
  simp only [joinWith_eq_intercalate]

/-! ### C2: window soundness — every visible row is inside the window -/

theorem ceilDiv_mul_ge (a b : Int) (hb : 0 < b) : a ≤ ceilDiv a b * b := by
  unfold ceilDiv
  rw [Int.fdiv_eq_ediv _ (le_of_lt hb)]
  have h1 : (-a) / b * b + (-a) % b = -a := Int.ediv_add_emod' (-a) b
  have h2 : 0 ≤ (-a) % b := Int.emod_nonneg (-a) (ne_of_gt hb)
  have h3 : -((-a) / b) * b = -((-a) / b * b) := by ring
  omega

theorem ceilDiv_nonneg_of_nonneg (a b : Int) (ha : 0 ≤ a) (hb : 0 < b) : 0 ≤ ceilDiv a b := by
  unfold ceilDiv
  rw [Int.fdiv_eq_ediv _ (le_of_lt hb)]
  by_contra h
  push_neg at h
  have h1 : 1 ≤ (-a) / b := by omega
  have h2 : 1 * b ≤ -a := (Int.le_ediv_iff_mul_le hb).mp h1
  omega

theorem lt_succ_ediv_mul (a b : Int) (hb : 0 < b) : a < (a / b + 1) * b := by
  have h1 : b * (a / b) + a % b = a := Int.ediv_add_emod a b
  have h2 : a % b < b := Int.emod_lt_of_pos a hb
  have h3 : (a / b + 1) * b = b * (a / b) + b := by ring
  omega

/-- C2: for `totalCount > 0`, `rowExtent > 0`, `scrollOffset` within the
scrollable range, and nonnegative viewport and overscan, every valid row
index `i` whose pixel span `[i*rowExtent, (i+1)*rowExtent)` intersects the
visible range `[scrollOffset, scrollOffset + viewportExtent]` satisfies
`startIndex ≤ i ≤ endIndex`: overscan only extends the window, it never
excludes a visible row. -/
theorem visibleRows_covered
    (count scrollTop estimateSize overscan containerHeight i : Int)
    (hc : 0 < count) (hr : 0 < estimateSize)
    (hs : 0 ≤ scrollTop) (hsu : scrollTop ≤ count * estimateSize - containerHeight)
    (ho : 0 ≤ overscan) (hv : 0 ≤ containerHeight)
    (hi0 : 0 ≤ i) (hic : i < count)
    (hleft : i * estimateSize ≤ scrollTop + containerHeight)
    (hright : scrollTop < (i + 1) * estimateSize) :
    startIndex scrollTop estimateSize overscan ≤ i ∧
    i ≤ endIndex count scrollTop estimateSize overscan containerHeight := by
  have hfd : Int.fdiv scrollTop estimateSize = scrollTop / estimateSize :=
    Int.fdiv_eq_ediv _ (le_of_lt hr)
  have hq_le_i : scrollTop / estimateSize ≤ i := by
    by_contra h
    push_neg at h
    have h1 : i + 1 ≤ scrollTop / estimateSize := by omega
    have h2 : (i + 1) * estimateSize ≤ scrollTop :=
      (Int.le_ediv_iff_mul_le hr).mp h1
    omega
  constructor
  · unfold startIndex
    rw [hfd]
    exact max_le hi0 (by omega)
  · have hcv : containerHeight ≤ ceilDiv containerHeight estimateSize * estimateSize :=
      ceilDiv_mul_ge containerHeight estimateSize hr
    have hsq : scrollTop < (scrollTop / estimateSize + 1) * estimateSize :=
      lt_succ_ediv_mul scrollTop estimateSize hr
    have hkey : i ≤ scrollTop / estimateSize + ceilDiv containerHeight estimateSize := by
      have hx : (scrollTop / estimateSize + 1 + ceilDiv containerHeight estimateSize) *
          estimateSize =
          (scrollTop / estimateSize + 1) * estimateSize +
            ceilDiv containerHeight estimateSize * estimateSize := by ring
      have hstep : i * estimateSize <
          (scrollTop / estimateSize + 1 + ceilDiv containerHeight estimateSize) *
            estimateSize := by omega
      have := lt_of_mul_lt_mul_right hstep (le_of_lt hr)
      omega
    have harm : scrollTop / estimateSize - overscan ≤ startIndex scrollTop estimateSize overscan := by
      unfold startIndex
      rw [hfd]
      exact le_max_right _ _
    refine le_min (by omega) ?_
    unfold visibleCount
    omega

/-- C2 witness: at `totalCount = 1000`, `rowExtent = 40`, `viewport = 600`,
`scrollOffset = 2000`, `overscan = 5`, row 50's span `[2000, 2040)` is
visible and the theorem places it between `startIndex = 45` and
`endIndex = 70`. -/
theorem visibleRows_covered_witness :
    ((0 : Int) < 1000 ∧ (0 : Int) < 40 ∧ (0 : Int) ≤ 2000 ∧
      (2000 : Int) ≤ 1000 * 40 - 600 ∧ (0 : Int) ≤ 5 ∧ (0 : Int) ≤ 600 ∧
      (0 : Int) ≤ 50 ∧ (50 : Int) < 1000 ∧
      (50 : Int) * 40 ≤ 2000 + 600 ∧ (2000 : Int) < (50 + 1) * 40) ∧
    (startIndex 2000 40 5 ≤ 50 ∧ 50 ≤ endIndex 1000 2000 40 5 600) :=
  ⟨by decide,
    visibleRows_covered 1000 2000 40 5 600 50 (by decide) (by decide) (by decide)
      (by decide) (by decide) (by decide) (by decide) (by decide) (by decide) (by decide)⟩

/-! ### C10: shape of the materialized window -/

/-- C10 counterexample: with virtual scrolling enabled, `count = 1 > 0`,
`estimateSize = 1`, `overscan = 0`, `containerHeight = 1` but the scroll
offset pointing past the end of the list (`scrollTop = 5`), the computed
window is empty — the claimed unconditional non-emptiness fails. -/
theorem virtualRows_nonempty_counterexample :
    (0 : Int) < 1 ∧ virtualRows true 1 1 0 1 5 = [] := ⟨by decide, by decide⟩

/-- C10 amended: whenever virtual scrolling is enabled, `count > 0`, and the
scroll offset does not point past the last row
(`scrollTop ≤ (count-1)*estimateSize`), the virtual row list is non-empty,
its indices are consecutive ascending and lie within `[0, count-1]`, each
item has `start = index*estimateSize`, `end = (index+1)*estimateSize`,
`size = estimateSize`, and `totalHeight = count*estimateSize`. -/
theorem virtualRows_window_amended
    (count estimateSize overscan containerHeight scrollTop : Int)
    (items : List VirtualItem)
    (hc : 0 < count) (hr : 0 < estimateSize) (ho : 0 ≤ overscan)
    (hv : 0 ≤ containerHeight) (hst : scrollTop ≤ (count - 1) * estimateSize)
    (hitems : items = virtualRows true count estimateSize overscan containerHeight scrollTop) :
    items ≠ [] ∧
    (∀ j : Nat, (h : j + 1 < items.length) →
      (items.get ⟨j + 1, h⟩).index = (items.get ⟨j, by omega⟩).index + 1) ∧
    (∀ it ∈ items, 0 ≤ it.index ∧ it.index ≤ count - 1 ∧
      it.start = it.index * estimateSize ∧ it.endPx = (it.index + 1) * estimateSize ∧
      it.size = estimateSize) ∧
    totalHeight count estimateSize = count * estimateSize := by
  have hfd : Int.fdiv scrollTop estimateSize = scrollTop / estimateSize :=
    Int.fdiv_eq_ediv _ (le_of_lt hr)
  have hqc : scrollTop / estimateSize ≤ count - 1 := by
    have h1 : scrollTop / estimateSize ≤ ((count - 1) * estimateSize) / estimateSize :=
      Int.ediv_le_ediv hr hst
    rwa [Int.mul_ediv_cancel _ (ne_of_gt hr)] at h1
  have hsc : startIndex scrollTop estimateSize overscan ≤ count - 1 := by
    unfold startIndex
    rw [hfd]
    exact max_le (by omega) (by omega)
  have hs0 : 0 ≤ startIndex scrollTop estimateSize overscan := le_max_left _ _
  have hvc : 0 ≤ visibleCount containerHeight estimateSize :=
    ceilDiv_nonneg_of_nonneg containerHeight estimateSize hv hr
  have hse : startIndex scrollTop estimateSize overscan ≤
      endIndex count scrollTop estimateSize overscan containerHeight := by
    unfold endIndex
    refine le_min hsc (by omega)
  have hec : endIndex count scrollTop estimateSize overscan containerHeight ≤ count - 1 :=
    min_le_left _ _
  have hrows : virtualRows true count estimateSize overscan containerHeight scrollTop =
      virtualItems (startIndex scrollTop estimateSize overscan)
        (endIndex count scrollTop estimateSize overscan containerHeight) estimateSize := by
    unfold virtualRows
    rw [if_neg]
    simp only [not_or]
    exact ⟨by simp, by omega⟩
  subst hitems
  rw [hrows]
  set s := startIndex scrollTop estimateSize overscan with hsdef
  set e := endIndex count scrollTop estimateSize overscan containerHeight with hedef
  have hlen : (virtualItems s e estimateSize).length = (e + 1 - s).toNat := by
    unfold virtualItems
    simp
  refine ⟨?_, ?_, ?_, rfl⟩
  · intro hnil
    have := hlen
    rw [hnil] at this
    simp at this
    omega
  · intro j h
    simp only [virtualItems, List.get_eq_getElem, List.getElem_map, List.getElem_range]
    push_cast
    ring
  · intro it hit
    unfold virtualItems at hit
    simp only [List.mem_map, List.mem_range] at hit
    obtain ⟨k, hk, rfl⟩ := hit
    have hk' : (k : Int) < e + 1 - s := by omega
    refine ⟨?_, ?_, rfl, rfl, rfl⟩
    · show (0 : Int) ≤ s + (k : Int)
      omega
    · show s + (k : Int) ≤ count - 1
      omega

/-- C10 witness: the amended theorem applied at `count = 1000`,
`estimateSize = 40`, `overscan = 10`, `containerHeight = 600`,
`scrollTop = 2000`. -/
theorem virtualRows_window_amended_witness :
    ((0 : Int) < 1000 ∧ (0 : Int) < 40 ∧ (0 : Int) ≤ 10 ∧ (0 : Int) ≤ 600 ∧
      (2000 : Int) ≤ (1000 - 1) * 40) ∧
    (virtualRows true 1000 40 10 600 2000 ≠ [] ∧
      (∀ j : Nat, (h : j + 1 < (virtualRows true 1000 40 10 600 2000).length) →
        ((virtualRows true 1000 40 10 600 2000).get ⟨j + 1, h⟩).index =
          ((virtualRows true 1000 40 10 600 2000).get ⟨j, by omega⟩).index + 1) ∧
      (∀ it ∈ virtualRows true 1000 40 10 600 2000, 0 ≤ it.index ∧ it.index ≤ 1000 - 1 ∧
        it.start = it.index * 40 ∧ it.endPx = (it.index + 1) * 40 ∧ it.size = 40) ∧
      totalHeight 1000 40 = 1000 * 40) :=
  ⟨by decide,
    virtualRows_window_amended 1000 40 10 600 2000 _ (by decide) (by decide) (by decide)
      (by decide) (by decide) rfl⟩

/-! ### C5: the global filter predicate -/

theorem isPrefixOf_iff_exists_append (n : List Char) :
    ∀ h : List Char, n.isPrefixOf h = true ↔ ∃ post, h = n ++ post := by
  induction n with
  | nil =>
    intro h
    simp [List.isPrefixOf]
  | cons c n' ih =>
    intro h
    cases h with
    | nil => simp [List.isPrefixOf]
    | cons d h' =>
      simp only [List.isPrefixOf, Bool.and_eq_true, beq_iff_eq, ih h', List.cons_append,
        List.cons.injEq]
      constructor
      · rintro ⟨rfl, post, rfl⟩
        exact ⟨post, rfl, rfl⟩
      · rintro ⟨post, rfl, rfl⟩
        exact ⟨rfl, post, rfl⟩

theorem containsSub_iff_exists_parts (n : List Char) :
    ∀ h : List Char, containsSub n h = true ↔ ∃ pre post, h = pre ++ n ++ post := by
  intro h
  induction h with
  | nil =>
    simp only [containsSub, List.isEmpty_iff]
    constructor
    · rintro rfl
      exact ⟨[], [], rfl⟩
    · rintro ⟨pre, post, hp⟩
      rcases List.append_eq_nil.mp (List.append_eq_nil.mp hp.symm).1 with ⟨-, h2⟩
      exact h2
  | cons c t ih =>
    simp only [containsSub, Bool.or_eq_true, isPrefixOf_iff_exists_append, ih]
    constructor
    · rintro (⟨post, hp⟩ | ⟨pre, post, hp⟩)
      · exact ⟨[], post, by simp [hp]⟩
      · exact ⟨c :: pre, post, by simp [hp]⟩
    · rintro ⟨pre, post, hp⟩
      cases pre with
      | nil =>
        exact Or.inl ⟨post, by simpa using hp⟩
      | cons p pre' =>
        simp only [List.cons_append, List.cons.injEq] at hp
        exact Or.inr ⟨pre', post, hp.2⟩

theorem string_data_eq_nil_iff (s : String) : s.data = [] ↔ s = "" := by
  rw [String.ext_iff]

theorem toLowerCase_eq_empty_iff (s : String) : toLowerCase s = "" ↔ s = "" := by
  rw [← string_data_eq_nil_iff (s := toLowerCase s), ← string_data_eq_nil_iff (s := s)]
  unfold toLowerCase
  simp

/-- C5: the global filter keeps a row exactly when the filter text is empty
or the lowercased string form of some non-null cell value contains the
lowercased filter text as a substring; a null/undefined cell (stringified to
the empty string) never matches a non-empty filter text, which is why the
witness cell is constrained to be `some`. -/
theorem globalFilterFn_iff (cells : List (Option String)) (filterValue : String) :
    globalFilterFn cells filterValue = true ↔
      (filterValue = "" ∨
        ∃ s, some s ∈ cells ∧
          ∃ pre post, (toLowerCase s).data = pre ++ (toLowerCase filterValue).data ++ post) := by
  unfold globalFilterFn
  by_cases hempty : toLowerCase filterValue = ""
  · rw [if_pos hempty]
    have hfe : filterValue = "" := (toLowerCase_eq_empty_iff _).mp hempty
    simp [hfe]
  · rw [if_neg hempty]
    have hfv : filterValue ≠ "" := fun hh => hempty (by rw [hh]; rfl)
    have hdata : (toLowerCase filterValue).data ≠ [] := by
      intro hd
      exact hempty (string_data_eq_nil_iff _ |>.mp hd)
    simp only [List.any_eq_true, List.mem_map, hfv, false_or]
    constructor
    · rintro ⟨val, ⟨cell, hcell, rfl⟩, hsub⟩
      cases cell with
      | none =>
        rw [containsSub_iff_exists_parts] at hsub
        obtain ⟨pre, post, hp⟩ := hsub
        exfalso
        have : (cellSearchText none).data = [] := rfl
        rw [this] at hp
        rcases List.append_eq_nil.mp (List.append_eq_nil.mp hp.symm).1 with ⟨-, h2⟩
        exact hdata h2
      | some s =>
        rw [containsSub_iff_exists_parts] at hsub
        exact ⟨s, hcell, hsub⟩
    · rintro ⟨s, hcell, pre, post, hp⟩
      refine ⟨cellSearchText (some s), ⟨some s, hcell, rfl⟩, ?_⟩
      rw [containsSub_iff_exists_parts]
      exact ⟨pre, post, hp⟩

/-! ### C6: stability of the multi-key sort -/

theorem pair_sublist_enumFrom {T : Type} :
    ∀ (l : List T) (n i j : Nat) (hij : i < j) (hj : j < l.length),
      List.Sublist [(n + i, l.get ⟨i, Nat.lt_trans hij hj⟩), (n + j, l.get ⟨j, hj⟩)]
        (l.enumFrom n) := by
  intro l
  induction l with
  | nil =>
    intro n i j hij hj
    simp at hj
  | cons x t ih =>
    intro n i j hij hj
    rw [List.enumFrom_cons]
    cases i with
    | zero =>
      cases j with
      | zero => exact absurd hij (lt_irrefl 0)
      | succ j' =>
        refine List.Sublist.cons₂ _ ?_
        rw [List.singleton_sublist]
        have hj' : j' < t.length := by simpa using hj
        have hx : (n + (j' + 1), (x :: t).get ⟨j' + 1, hj⟩) =
            ((t.enumFrom (n + 1)).get ⟨j', by simpa using hj'⟩) := by
          simp only [List.get_eq_getElem, List.getElem_cons_succ, List.getElem_enumFrom]
          refine Prod.ext ?_ rfl
          simp
          omega
        rw [hx]
        exact List.get_mem _ _ _
    | succ i' =>
      cases j with
      | zero => exact absurd hij (by omega)
      | succ j' =>
        refine List.Sublist.cons _ ?_
        have hij' : i' < j' := by omega
        have hj' : j' < t.length := by simpa using hj
        have h1 : n + (i' + 1) = (n + 1) + i' := by omega
        have h2 : n + (j' + 1) = (n + 1) + j' := by omega
        have h3 : (x :: t).get ⟨i' + 1, Nat.lt_trans hij hj⟩ =
            t.get ⟨i', Nat.lt_trans hij' hj'⟩ := by
          simp [List.get_eq_getElem]
        have h4 : (x :: t).get ⟨j' + 1, hj⟩ = t.get ⟨j', hj'⟩ := by
          simp [List.get_eq_getElem]
        rw [h1, h2, h3, h4]
        exact ih (n + 1) i' j' hij' hj'

theorem insertionSort_total_id {α : Type} (r : α → α → Prop) [DecidableRel r]
    (htot : ∀ a b, r a b) (l : List α) : l.insertionSort r = l := by
  induction l with
  | nil => rfl
  | cons x t ih =>
    simp only [List.insertionSort, ih]
    cases t with
    | nil => rfl
    | cons y t' => simp [List.orderedInsert, htot x y]

/-- C6: the sort is stable — for every dataset and sort spec, two rows at
positions `i < j` that compare equal on all active sort keys keep their
relative order in the sorted output (stated on the index-decorated output);
and with an empty sort spec the output order equals the input order. -/
theorem sortRows_stable {T : Type} (columns : List (SortColumn T)) (sspec : List SortKey)
    (l : List T) (i j : Nat) (hij : i < j) (hj : j < l.length)
    (htie : multiKeyCompare columns sspec (l.get ⟨i, Nat.lt_trans hij hj⟩)
      (l.get ⟨j, hj⟩) = Ordering.eq) :
    List.Sublist [(i, l.get ⟨i, Nat.lt_trans hij hj⟩), (j, l.get ⟨j, hj⟩)]
      (sortEnum columns sspec l) ∧
    sortRows columns [] l = l := by
  constructor
  · unfold sortEnum
    refine List.pair_sublist_insertionSort ?_ ?_
    · show multiKeyCompare columns sspec _ _ ≠ Ordering.gt
      rw [htie]
      simp
    · have h := pair_sublist_enumFrom l 0 i j hij hj
      simpa [List.enum] using h
  · have htot : ∀ p q : Nat × T, rowLE columns [] p q := by
      intro p q
      show multiKeyCompare columns [] p.2 q.2 ≠ Ordering.gt
      rw [show multiKeyCompare columns [] p.2 q.2 = Ordering.eq from rfl]
      simp
    unfold sortRows sortEnum
    rw [insertionSort_total_id _ htot]
    exact List.enumFrom_map_snd 0 l

/-- C6 witness: two rows tying on the single sort key (a constant-valued
column) stay in original relative order, and the empty sort spec is the
identity. -/
theorem sortRows_stable_witness :
    ((0 : Nat) < 1 ∧ 1 < (["x", "y"] : List String).length ∧
      multiKeyCompare [⟨"v", fun _ => CellValue.num 1⟩] [⟨"v", SortDir.asc⟩] "x" "y" =
        Ordering.eq) ∧
    (List.Sublist [(0, "x"), (1, "y")]
        (sortEnum [⟨"v", fun _ => CellValue.num 1⟩] [⟨"v", SortDir.asc⟩] ["x", "y"]) ∧
      sortRows [⟨"v", fun _ => CellValue.num 1⟩] [] ["x", "y"] = ["x", "y"]) :=
  ⟨⟨by decide, by decide, by decide⟩,
    sortRows_stable [⟨"v", fun _ => CellValue.num 1⟩] [⟨"v", SortDir.asc⟩] ["x", "y"] 0 1
      (by decide) (by decide) (by decide)⟩

/-! ### C3: CSV round trip -/

theorem string_mk_data (s : String) : String.mk s.data = s := by
  cases s
  rfl

theorem parseStep_quote_inQ (jc : Bool) (f : List Char) (r : List String)
    (rs : List (List String)) :
    parseStep ⟨true, jc, f, r, rs⟩ '"' = ⟨false, true, f, r, rs⟩ := rfl

theorem parseStep_other_inQ (c : Char) (hc : c ≠ '"') (jc : Bool) (f : List Char)
    (r : List String) (rs : List (List String)) :
    parseStep ⟨true, jc, f, r, rs⟩ c = ⟨true, false, f ++ [c], r, rs⟩ := by
  simp [parseStep, hc]

theorem parseStep_quote_closed (f : List Char) (r : List String) (rs : List (List String)) :
    parseStep ⟨false, true, f, r, rs⟩ '"' = ⟨true, false, f ++ ['"'], r, rs⟩ := rfl

theorem parseStep_quote_fresh (f : List Char) (r : List String) (rs : List (List String)) :
    parseStep ⟨false, false, f, r, rs⟩ '"' = ⟨true, false, f, r, rs⟩ := rfl

theorem parseStep_comma (jc : Bool) (f : List Char) (r : List String)
    (rs : List (List String)) :
    parseStep ⟨false, jc, f, r, rs⟩ ',' = ⟨false, false, [], r ++ [String.mk f], rs⟩ := rfl

theorem parseStep_cr (jc : Bool) (f : List Char) (r : List String) (rs : List (List String)) :
    parseStep ⟨false, jc, f, r, rs⟩ '\r' = ⟨false, false, f, r, rs⟩ := rfl

theorem parseStep_lf (jc : Bool) (f : List Char) (r : List String) (rs : List (List String)) :
    parseStep ⟨false, jc, f, r, rs⟩ '\n' =
      ⟨false, false, [], [], rs ++ [r ++ [String.mk f]]⟩ := rfl

theorem parseStep_plain (c : Char) (hq : c ≠ '"') (hcm : c ≠ ',') (hn : c ≠ '\n')
    (hr : c ≠ '\r') (jc : Bool) (f : List Char) (r : List String) (rs : List (List String)) :
    parseStep ⟨false, jc, f, r, rs⟩ c = ⟨false, false, f ++ [c], r, rs⟩ := by
  simp [parseStep, hq, hcm, hn, hr]

theorem foldl_parseStep_doubled (cs : List Char) :
    ∀ (f : List Char) (r : List String) (rs : List (List String)),
      List.foldl parseStep ⟨true, false, f, r, rs⟩ (doubleQuotes cs) =
        ⟨true, false, f ++ cs, r, rs⟩ := by
  induction cs with
  | nil =>
    intro f r rs
    simp [doubleQuotes]
  | cons c cs ih =>
    intro f r rs
    by_cases hc : c = '"'
    · subst hc
      have hd : doubleQuotes ('"' :: cs) = '"' :: '"' :: doubleQuotes cs := by
        simp [doubleQuotes]
      rw [hd, List.foldl_cons, parseStep_quote_inQ, List.foldl_cons, parseStep_quote_closed, ih]
      simp
    · have hd : doubleQuotes (c :: cs) = c :: doubleQuotes cs := by
        simp [doubleQuotes, hc]
      rw [hd, List.foldl_cons, parseStep_other_inQ c hc, ih]
      simp

theorem foldl_parseStep_plain_run (cs : List Char)
    (hcs : ∀ c ∈ cs, ¬(c = ',' ∨ c = '"' ∨ c = '\n' ∨ c = '\r')) :
    ∀ (f : List Char) (r : List String) (rs : List (List String)),
      List.foldl parseStep ⟨false, false, f, r, rs⟩ cs = ⟨false, false, f ++ cs, r, rs⟩ := by
  induction cs with
  | nil =>
    intro f r rs
    simp
  | cons c cs ih =>
    intro f r rs
    have hc := hcs c (List.mem_cons_self c cs)
    push_neg at hc
    obtain ⟨h1, h2, h3, h4⟩ := hc
    rw [List.foldl_cons, parseStep_plain c h2 h1 h3 h4,
      ih (fun x hx => hcs x (List.mem_cons_of_mem c hx))]
    simp

theorem foldl_parseStep_escaped (s : String) (r : List String) (rs : List (List String)) :
    List.foldl parseStep ⟨false, false, [], r, rs⟩ (escapeCSV (some s)).data =
      ⟨false, needsQuote s, s.data, r, rs⟩ := by
  by_cases h : needsQuote s
  · have he : escapeCSV (some s) = "\"" ++ String.mk (doubleQuotes s.data) ++ "\"" := by
      simp [escapeCSV, h]
    have hdata : (escapeCSV (some s)).data = '"' :: (doubleQuotes s.data ++ ['"']) := by
      rw [he]
      simp
    rw [h, hdata, List.foldl_cons, parseStep_quote_fresh, List.foldl_append,
      foldl_parseStep_doubled, List.foldl_cons, parseStep_quote_inQ, List.foldl_nil]
    simp
  · have he : escapeCSV (some s) = s := by
      simp [escapeCSV, h]
    have hchars : ∀ c ∈ s.data, ¬(c = ',' ∨ c = '"' ∨ c = '\n' ∨ c = '\r') := by
      intro c hc
      have hb : ¬(c == ',' || c == '"' || c == '\n' || c == '\r') = true := by
        intro hb
        exact h (List.any_eq_true.mpr ⟨c, hc, hb⟩)
      simp only [Bool.or_eq_true, beq_iff_eq] at hb
      push_neg at hb
      simp only [not_or]
      exact ⟨hb.1.1.1, hb.1.1.2, hb.1.2, hb.2⟩
    rw [he, foldl_parseStep_plain_run s.data hchars]
    have hq : needsQuote s = false := by
      simp only [Bool.not_eq_true] at h
      exact h
    rw [hq]
    simp

theorem foldl_join_pull (sep : String) (l : List String) :
    ∀ a b : String,
      List.foldl (fun acc s => acc ++ sep ++ s) (a ++ b) l =
        a ++ List.foldl (fun acc s => acc ++ sep ++ s) b l := by
  induction l with
  | nil =>
    intro a b
    rfl
  | cons x xs ih =>
    intro a b
    rw [List.foldl_cons, List.foldl_cons]
    have hx : a ++ b ++ sep ++ x = a ++ (b ++ sep ++ x) := by
      simp [String.append_assoc]
    rw [hx, ih]

theorem joinWith_cons_ne (sep a : String) (l : List String) (h : l ≠ []) :
    joinWith sep (a :: l) = a ++ sep ++ joinWith sep l := by
  cases l with
  | nil => exact absurd rfl h
  | cons b m =>
    show List.foldl (fun acc s => acc ++ sep ++ s) a (b :: m) = _
    rw [List.foldl_cons]
    have hx : a ++ sep ++ b = (a ++ sep) ++ b := rfl
    rw [hx, foldl_join_pull]
    rfl

theorem foldl_parseStep_cells :
    ∀ (pre : List String) (x : String) (r : List String) (rs : List (List String)),
      List.foldl parseStep ⟨false, false, [], r, rs⟩
        (joinWith "," ((pre ++ [x]).map fun s => escapeCSV (some s))).data =
        ⟨false, needsQuote x, x.data, r ++ pre, rs⟩ := by
  intro pre
  induction pre with
  | nil =>
    intro x r rs
    have hj : joinWith "," (([] ++ [x]).map fun s => escapeCSV (some s)) =
        escapeCSV (some x) := rfl
    rw [hj, foldl_parseStep_escaped]
    simp
  | cons p pre' ih =>
    intro x r rs
    have hmap : (((p :: pre') ++ [x]).map fun s => escapeCSV (some s)) =
        escapeCSV (some p) :: ((pre' ++ [x]).map fun s => escapeCSV (some s)) := by
      simp
    have hne : ((pre' ++ [x]).map fun s => escapeCSV (some s)) ≠ [] := by
      simp
    rw [hmap, joinWith_cons_ne _ _ _ hne]
    have hdata : (escapeCSV (some p) ++ "," ++
        joinWith "," ((pre' ++ [x]).map fun s => escapeCSV (some s))).data =
        (escapeCSV (some p)).data ++
          (',' :: (joinWith "," ((pre' ++ [x]).map fun s => escapeCSV (some s))).data) := by
      simp
    rw [hdata, List.foldl_append, foldl_parseStep_escaped, List.foldl_cons, parseStep_comma,
      string_mk_data, ih]
    simp

theorem foldl_parseStep_record (cells : List String) (hne : cells ≠ [])
    (rs : List (List String)) :
    List.foldl parseStep ⟨false, false, [], [], rs⟩
      ((joinWith "," (cells.map fun s => escapeCSV (some s))).data ++ ['\r', '\n']) =
      ⟨false, false, [], [], rs ++ [cells]⟩ := by
  have hsplit : cells.dropLast ++ [cells.getLast hne] = cells :=
    List.dropLast_append_getLast hne
  rw [List.foldl_append, ← hsplit, foldl_parseStep_cells, List.foldl_cons, parseStep_cr,
    List.foldl_cons, parseStep_lf, List.foldl_nil, string_mk_data]
  simp

theorem foldl_parseStep_lines :
    ∀ (lines : List (List String)), lines ≠ [] → (∀ cl ∈ lines, cl ≠ []) →
      ∀ rs : List (List String),
        finishParse (List.foldl parseStep ⟨false, false, [], [], rs⟩
          (joinWith "\r\n"
            (lines.map fun cl => joinWith "," (cl.map fun s => escapeCSV (some s)))).data) =
          rs ++ lines := by
  intro lines
  induction lines with
  | nil => intro h; exact absurd rfl h
  | cons L ls ih =>
    intro _hne hall rs
    cases ls with
    | nil =>
      have hL : L ≠ [] := hall L (List.mem_cons_self L [])
      have hj : joinWith "\r\n" ([L].map fun cl =>
          joinWith "," (cl.map fun s => escapeCSV (some s))) =
          joinWith "," (L.map fun s => escapeCSV (some s)) := rfl
      have hsplit : L.dropLast ++ [L.getLast hL] = L := List.dropLast_append_getLast hL
      rw [hj, ← hsplit, foldl_parseStep_cells]
      unfold finishParse
      simp [string_mk_data]
    | cons L' ls' =>
      have hL : L ≠ [] := hall L (List.mem_cons_self L (L' :: ls'))
      have hne2 : ((L' :: ls').map fun cl =>
          joinWith "," (cl.map fun s => escapeCSV (some s))) ≠ [] := by
        simp
      have hmap : ((L :: L' :: ls').map fun cl =>
          joinWith "," (cl.map fun s => escapeCSV (some s))) =
          joinWith "," (L.map fun s => escapeCSV (some s)) ::
            ((L' :: ls').map fun cl => joinWith "," (cl.map fun s => escapeCSV (some s))) := by
        simp
      rw [hmap, joinWith_cons_ne _ _ _ hne2]
      have hdata : (joinWith "," (L.map fun s => escapeCSV (some s)) ++ "\r\n" ++
          joinWith "\r\n"
            ((L' :: ls').map fun cl => joinWith "," (cl.map fun s => escapeCSV (some s)))).data =
          ((joinWith "," (L.map fun s => escapeCSV (some s))).data ++ ['\r', '\n']) ++
            (joinWith "\r\n"
              ((L' :: ls').map fun cl =>
                joinWith "," (cl.map fun s => escapeCSV (some s)))).data := by
        simp
      rw [hdata, List.foldl_append, foldl_parseStep_record L hL,
        ih (by simp) (fun cl hcl => hall cl (List.mem_cons_of_mem L hcl)) (rs ++ [L])]
      simp

/-- C3 counterexample: with an empty column list and one data row the
generated text is `"\r\n"`, which the documented rules parse as two records
of one empty field each — not the original empty header list and empty row.
The claimed round trip therefore fails for the degenerate zero-column table. -/
theorem parseCSV_roundTrip_counterexample :
    parseCSV (generateCSV ([] : List (CSVColumn Unit)) [()]) ≠
      [([] : List String), []] := by decide

/-- C3 amended: for every *non-empty* column list and every row list whose
cell values are strings, parsing the text produced by `generateCSV` per the
documented delimiter/quote rules recovers exactly the original header labels
and cell values — including values containing quotes, commas and newlines. -/
theorem parseCSV_generateCSV_roundTrip {T : Type} (columns : List (CSVColumn T))
    (data : List T) (hne : columns ≠ [])
    (hsome : ∀ c ∈ columns, ∀ r ∈ data, (c.accessor r).isSome = true) :
    parseCSV (generateCSV columns data) =
      (columns.map fun c => c.header) ::
        data.map fun r => columns.map fun c => (c.accessor r).getD "" := by
  have hmatrix : generateCSV columns data =
      joinWith "\r\n"
        ((((columns.map fun c => c.header) ::
            data.map fun r => columns.map fun c => (c.accessor r).getD "").map
          fun cl => joinWith "," (cl.map fun s => escapeCSV (some s)))) := by
    unfold generateCSV
    congr 1
    rw [List.map_cons]
    congr 1
    · rw [List.map_map]
      rfl
    · rw [List.map_map]
      refine List.map_congr_left ?_
      intro r hr
      simp only [Function.comp]
      congr 1
      rw [List.map_map]
      refine List.map_congr_left ?_
      intro c hc
      simp only [Function.comp]
      cases ho : c.accessor r with
      | none =>
        have := hsome c hc r hr
        rw [ho] at this
        simp at this
      | some v => simp
  rw [hmatrix]
  unfold parseCSV
  have hinit : initState = ⟨false, false, [], [], []⟩ := rfl
  rw [hinit]
  rw [foldl_parseStep_lines _ (by simp) ?_ []]
  · simp
  · intro cl hcl
    rcases List.mem_cons.mp hcl with hcl | hcl
    · subst hcl
      simp only [ne_eq, List.map_eq_nil_iff]
      exact hne
    · obtain ⟨r, -, rfl⟩ := List.mem_map.mp hcl
      simp only [ne_eq, List.map_eq_nil_iff]
      exact hne

/-- C3 witness: the amended round trip applied to a two-column table whose
single row contains the value `"a,b"` followed by a newline and `c`, i.e. a
cell with quotes, a comma and a line break. -/
theorem parseCSV_generateCSV_roundTrip_witness :
    (([({id := "v", header := "Value", accessor := fun r => some r} : CSVColumn String),
        {id := "w", header := "Other", accessor := fun _ => some "plain"}] ≠
        ([] : List (CSVColumn String))) ∧
      (∀ c ∈ [({id := "v", header := "Value", accessor := fun r => some r} : CSVColumn String),
          {id := "w", header := "Other", accessor := fun _ => some "plain"}],
        ∀ r ∈ ["\"a,b\"\nc"], (c.accessor r).isSome = true)) ∧
    parseCSV (generateCSV
        [({id := "v", header := "Value", accessor := fun r => some r} : CSVColumn String),
          {id := "w", header := "Other", accessor := fun _ => some "plain"}]
        ["\"a,b\"\nc"]) =
      [["Value", "Other"], ["\"a,b\"\nc", "plain"]] :=
  ⟨⟨by simp, by decide⟩,
    parseCSV_generateCSV_roundTrip
      [({id := "v", header := "Value", accessor := fun r => some r} : CSVColumn String),
        {id := "w", header := "Other", accessor := fun _ => some "plain"}]
      ["\"a,b\"\nc"] (by simp) (by decide)⟩

/-! ### Closed instantiations of the remaining claim theorems -/

/-- C7 witness: `clearAllFilters` applied to a concrete state. -/
theorem clearAllFilters_spec_witness :
    (clearAllFilters ⟨[("amount", true)], [("status", "paid")], "query", ["r1", "r2"],
        ⟨3, 25⟩⟩).globalFilter = "" ∧
    (clearAllFilters ⟨[("amount", true)], [("status", "paid")], "query", ["r1", "r2"],
        ⟨3, 25⟩⟩).columnFilters = [] ∧
    (clearAllFilters ⟨[("amount", true)], [("status", "paid")], "query", ["r1", "r2"],
        ⟨3, 25⟩⟩).pagination.pageIndex = 0 ∧
    (clearAllFilters ⟨[("amount", true)], [("status", "paid")], "query", ["r1", "r2"],
        ⟨3, 25⟩⟩).pagination.pageSize =
      (⟨[("amount", true)], [("status", "paid")], "query", ["r1", "r2"],
        ⟨3, 25⟩⟩ : TableState).pagination.pageSize ∧
    (clearAllFilters ⟨[("amount", true)], [("status", "paid")], "query", ["r1", "r2"],
        ⟨3, 25⟩⟩).sorting =
      (⟨[("amount", true)], [("status", "paid")], "query", ["r1", "r2"],
        ⟨3, 25⟩⟩ : TableState).sorting ∧
    (clearAllFilters ⟨[("amount", true)], [("status", "paid")], "query", ["r1", "r2"],
        ⟨3, 25⟩⟩).rowSelection =
      (⟨[("amount", true)], [("status", "paid")], "query", ["r1", "r2"],
        ⟨3, 25⟩⟩ : TableState).rowSelection :=
  clearAllFilters_spec ⟨[("amount", true)], [("status", "paid")], "query", ["r1", "r2"], ⟨3, 25⟩⟩

/-- C9 witness: the disabled/empty cases and the nonnegativity conjunct
evaluated at concrete inputs. -/
theorem virtualRows_empty_and_nonneg_witness :
    virtualRows true 0 40 10 600 123 = [] ∧
    endIndex 0 123 40 10 600 < startIndex 123 40 10 ∧
    (∀ it ∈ virtualRows true 1000 40 10 600 2000, 0 ≤ it.index) :=
  ⟨virtualRows_empty_and_nonneg.1 40 10 600 123,
    virtualRows_empty_and_nonneg.2.1 123 40 10 600,
    virtualRows_empty_and_nonneg.2.2 true 1000 40 10 600 2000⟩

/-- C5 witness: the filter-keeping condition instantiated at a concrete row
and filter text. -/
theorem globalFilterFn_iff_witness :
    globalFilterFn [some "Hello", none] "ELL" = true ↔
      ("ELL" = "" ∨
        ∃ s, some s ∈ [some "Hello", none] ∧
          ∃ pre post, (toLowerCase s).data = pre ++ (toLowerCase "ELL").data ++ post) :=
  globalFilterFn_iff [some "Hello", none] "ELL"

/-- C4 witness: the amended export rule instantiated at a concrete view and
selection. -/
theorem exportData_amended_witness :
    exportDataModel (fun s => s) ["a"] ["a", "b"] =
      if (selectedRowsModel (fun s => s) ["a"] ["a", "b"]).isEmpty then ["a", "b"]
      else selectedRowsModel (fun s => s) ["a"] ["a", "b"] :=
  exportData_amended (fun s => s) ["a"] ["a", "b"]

/-- C8 witness: the separator form instantiated at a one-column, two-row
table. -/
theorem generateCSV_crlf_separated_witness :
    generateCSV [({id := "v", header := "V", accessor := fun r => some r} : CSVColumn String)]
        ["x", "y"] =
      String.intercalate "\r\n"
        (String.intercalate ","
            ([({id := "v", header := "V", accessor := fun r => some r} : CSVColumn String)].map
              fun c => escapeCSV (some c.header)) ::
          ["x", "y"].map fun r =>
            String.intercalate ","
              ([({id := "v", header := "V", accessor := fun r => some r} : CSVColumn String)].map
                fun c => escapeCSV (c.accessor r))) :=
  generateCSV_crlf_separated
    [({id := "v", header := "V", accessor := fun r => some r} : CSVColumn String)] ["x", "y"]

end DashSpec
